import Mathlib

/-!
# vis-framework: knockout binding handlers and selectable arrays

A shallow embedding of `static/js/ko-binding-handlers.js` and `static/js/models.js`.

* The wizard widget (`$(element).wizard(...)`), the grid widget (`dataTable()`,
  `TableTools`), knockout's observable arrays and underscore's `_.isEqual` are
  collaborators that live outside the two source files.  The wizard and the
  deep equality are taken as parameters; the grid and the observable array
  are modelled from the contracts of the specification.
* JavaScript `while` loops over the wizard may fail to terminate on an
  arbitrary widget, so they carry a fuel argument and return `Option`.
* Steps are integers (`Int`); rows are an arbitrary type.
* The grid has a node only for the rows of its own dataset; `selectedRows.update` returns
  `Option`, with `none` for a run that asks the widget to select a node it lacks.
-/

namespace VisFramework

/-! ## Wizard widget and `wizardStep` binding -/

/-- The wizard widget as a collaborator: a hidden state of type `σ`, the step read by
`$(element).wizard('selectedItem').step`, and the two relative transitions
`$(element).wizard('next')` and `$(element).wizard('previous')`. -/
structure Wizard (σ : Type) where
  /-- the step of `wizard('selectedItem')` -/
  step : σ → Int
  /-- the effect of `wizard('next')` on the widget -/
  next : σ → σ
  /-- the effect of `wizard('previous')` on the widget -/
  previous : σ → σ

/-- The state machine of the specification: every request either moves the current step
by exactly one in the requested direction or leaves it unchanged (refusal). -/
def Wizard.Obeys {σ : Type} (W : Wizard σ) : Prop :=
  (∀ w, W.step (W.next w) = W.step w + 1 ∨ W.step (W.next w) = W.step w) ∧
  (∀ w, W.step (W.previous w) = W.step w - 1 ∨ W.step (W.previous w) = W.step w)

/-- One request sent to the widget by `tryNext`, with the step read before and after it.
`direction = true` is `wizard('next')`, `direction = false` is `wizard('previous')`. -/
structure Attempt where
  direction : Bool
  before : Int
  after : Int
  deriving DecidableEq

/-- A request is refused when the step read after it equals the step read before it. -/
def Attempt.refused (a : Attempt) : Bool := decide (a.before = a.after)

/-- When the widget raises its `'changed'` event: after every transition attempt
(refused ones included), only after an attempt that changed the step, or never. -/
inductive ChangedEvent where
  | always
  | onSuccess
  | never
  deriving DecidableEq

/-- Whether `'changed'` is raised for an attempt that read `before` and then `after`. -/
def ChangedEvent.fires : ChangedEvent → Int → Int → Bool
  | .always, _, _ => true
  | .onSuccess, before, after => decide (before ≠ after)
  | .never, _, _ => false

/-- What the `wizardStep` binding acts on: the widget behind `element`, the target
observable returned by `valueAccessor()`, and the record of the requests sent so far. -/
structure Binding (σ : Type) where
  widget : σ
  value : Int
  requests : List Attempt
  deriving DecidableEq

/-- The helper `selectedItem(element)`: `$(element).wizard('selectedItem').step`. -/
def selectedItem {σ : Type} (W : Wizard σ) (b : Binding σ) : Int :=
  W.step b.widget

/-- The listener installed by `wizardStep.init` on `'changed'`:
`value(selectedItem(element))`. -/
def onChanged {σ : Type} (W : Wizard σ) (b : Binding σ) : Binding σ :=
  { b with value := selectedItem W b }

/-- The inner function `tryNext(direction)` of `wizardStep.update`: read the step, send
`'next'` or `'previous'`, and report whether the step read afterwards differs.  The
`'changed'` listener runs between the request and the second read when `ev` fires. -/
def tryNext {σ : Type} (W : Wizard σ) (ev : ChangedEvent) (direction : Bool)
    (b : Binding σ) : Bool × Binding σ :=
  let curVal := selectedItem W b
  let w := if direction then W.next b.widget else W.previous b.widget
  let b1 : Binding σ :=
    { widget := w, value := b.value,
      requests := b.requests ++ [{ direction := direction, before := curVal, after := W.step w }] }
  let b2 := if ev.fires curVal (W.step w) then onChanged W b1 else b1
  (decide (curVal ≠ selectedItem W b2), b2)

/-- The loop `while (val > selectedItem(element)) if (!tryNext(true)) break;`.
One unit of fuel is spent per executed iteration. -/
def loopNext {σ : Type} (W : Wizard σ) (ev : ChangedEvent) (val : Int) :
    Nat → Binding σ → Option (Binding σ)
  | fuel, b =>
    if val > selectedItem W b then
      match fuel with
      | 0 => none
      | n + 1 =>
        let r := tryNext W ev true b
        if !r.1 then some r.2 else loopNext W ev val n r.2
    else some b

/-- The loop `while (val < selectedItem(element)) if (!tryNext(false)) break;`. -/
def loopPrevious {σ : Type} (W : Wizard σ) (ev : ChangedEvent) (val : Int) :
    Nat → Binding σ → Option (Binding σ)
  | fuel, b =>
    if val < selectedItem W b then
      match fuel with
      | 0 => none
      | n + 1 =>
        let r := tryNext W ev false b
        if !r.1 then some r.2 else loopPrevious W ev val n r.2
    else some b

/-- The function `ko.bindingHandlers.wizardStep.update`: read `val` once from the target,
run the two loops, then write the widget's step back with `value(selectedItem(element))`.
Each loop may run `fuel` iterations. -/
def update {σ : Type} (W : Wizard σ) (ev : ChangedEvent) (fuel : Nat)
    (b : Binding σ) : Option (Binding σ) :=
  let val := b.value
  match loopNext W ev val fuel b with
  | none => none
  | some b1 =>
    match loopPrevious W ev val fuel b1 with
    | none => none
    | some b2 => some { b2 with value := selectedItem W b2 }

/-- What a run leaves behind apart from the target: the widget and the requests sent. -/
def outcome {σ : Type} (b : Binding σ) : σ × List Attempt := (b.widget, b.requests)

/-- The number of loop iterations that suffices on a widget obeying the state machine. -/
def enoughFuel {σ : Type} (W : Wizard σ) (b : Binding σ) : Nat :=
  (b.value - selectedItem W b).natAbs

/-- A concrete wizard with steps `0..N` whose state is just the step: `'next'` from step
`k` is refused when `k = N` or when `gate k` holds, `'previous'` is refused at step `0`. -/
def gatedWizard (N : Int) (gate : Int → Bool) : Wizard Int where
  step w := w
  next w := if w < N ∧ gate w = false then w + 1 else w
  previous w := if 0 < w then w - 1 else w

/-- A concrete wizard with a hidden latch beside the step: while the latch is set every
request moves the step by one, and once it is cleared every request is refused. -/
def latchWizard : Wizard (Int × Bool) where
  step w := w.1
  next w := if w.2 then (w.1 + 1, true) else w
  previous w := if w.2 then (w.1 - 1, true) else w

/-! ## Observable arrays and `SelectableArray` (models.js) -/

/-- Modelled from the spec: knockout's `ko.observableArray` (ObservableCollection), an
ordered sequence with change notification.  `value` is the underlying array and
`notifications` counts the change notifications sent to subscribers. -/
structure ObservableArray (α : Type) where
  value : List α
  notifications : Nat
  deriving DecidableEq

/-- Modelled from the spec: `ko.observableArray()`, a new empty observable array. -/
def ObservableArray.empty {α : Type} : ObservableArray α :=
  { value := [], notifications := 0 }

/-- Modelled from the spec: the removal scan of `observableArray.remove(predicate)`, which
drops every element satisfying the predicate and keeps the survivors in order. -/
def removeWhere {α : Type} (p : α → Bool) : List α → List α
  | [] => []
  | x :: xs => if p x then removeWhere p xs else x :: removeWhere p xs

/-- Modelled from the spec: `observableArray.remove(predicate)` (remove-by-predicate,
followed by a change notification). -/
def ObservableArray.remove {α : Type} (o : ObservableArray α) (p : α → Bool) :
    ObservableArray α :=
  { value := removeWhere p o.value, notifications := o.notifications + 1 }

/-- Modelled from the spec: `observableArray.removeAll()` without arguments, which empties
the array and notifies. -/
def ObservableArray.removeAll {α : Type} (o : ObservableArray α) : ObservableArray α :=
  { value := [], notifications := o.notifications + 1 }

/-- Modelled from the spec: `observableArray.push(x)` (append, followed by a change
notification). -/
def ObservableArray.push {α : Type} (o : ObservableArray α) (x : α) : ObservableArray α :=
  { value := o.value ++ [x], notifications := o.notifications + 1 }

/-- Modelled from the spec: `observable.valueHasMutated()`, which notifies the subscribers
and leaves the contents alone. -/
def ObservableArray.valueHasMutated {α : Type} (o : ObservableArray α) : ObservableArray α :=
  { o with notifications := o.notifications + 1 }

/-- The constructor `SelectableArray`: two observable arrays `items` and `selectedItems`. -/
structure SelectableArray (α : Type) where
  items : ObservableArray α
  selectedItems : ObservableArray α
  deriving DecidableEq

/-- The call `new SelectableArray()`: both arrays start empty. -/
def SelectableArray.new {α : Type} : SelectableArray α :=
  { items := ObservableArray.empty, selectedItems := ObservableArray.empty }

/-- The predicate passed to `this.items.remove` in `removeSelected`:
`for (i = 0; i < selected.length; ++i) if (_.isEqual(selected[i], item)) return true;`
then `return false`.  The parameter `isEqual` stands for `_.isEqual`. -/
def isSelected {α : Type} (isEqual : α → α → Bool) : List α → α → Bool
  | [], _ => false
  | s :: rest, item => if isEqual s item then true else isSelected isEqual rest item

/-- The method `SelectableArray.prototype.removeSelected`. -/
def removeSelected {α : Type} (isEqual : α → α → Bool) (m : SelectableArray α) :
    SelectableArray α :=
  let selected := m.selectedItems.value
  let m1 := { m with items := m.items.remove (fun item => isSelected isEqual selected item) }
  let m2 := { m1 with selectedItems := m1.selectedItems.removeAll }
  let m3 := { m2 with selectedItems := m2.selectedItems.valueHasMutated }
  { m3 with items := m3.items.valueHasMutated }

/-- A row of sample data: a record given by its fields, such as `{id: 2}`. -/
abbrev Row := List (String × Nat)

/-- Deep equality on sample rows: two records are equal when their fields are. -/
def rowEqual (a b : Row) : Bool := decide (a = b)

/-! ## Grid widget, `tableData` and `selectedRows` bindings -/

/-- Modelled from the spec: the grid widget (`dataTable()` with its `TableTools`
instance).  `data` is the widget's row dataset; `selectCalls` records, in order, the row
index of every node handed to the select-node operation. -/
structure Grid (α : Type) where
  data : List α
  selectCalls : List Nat
  deriving DecidableEq

/-- Modelled from the spec: `dataTable().fnGetData()` (`getRowsData`), the full dataset. -/
def Grid.fnGetData {α : Type} (g : Grid α) : List α := g.data

/-- Modelled from the spec: `dt.fnClearTable()` (`clearAllRows`), which empties the
dataset. -/
def Grid.fnClearTable {α : Type} (g : Grid α) : Grid α := { g with data := [] }

/-- Modelled from the spec: `dt.fnAddData(rows)` (`addRows`), which appends the rows to
the dataset. -/
def Grid.fnAddData {α : Type} (g : Grid α) (rows : List α) : Grid α :=
  { g with data := g.data ++ rows }

/-- Modelled from the spec: `dt.fnGetNodes(j)` (`rowNodeAt`).  The widget has one node
per row of its own dataset, identified by the row index; for an index it has no row at
there is no node (`none`). -/
def Grid.fnGetNodes {α : Type} (g : Grid α) (j : Nat) : Option Nat :=
  if j < g.data.length then some j else none

/-- Modelled from the spec: `tools.fnSelect(node)` (`selectNode`), recorded in
`selectCalls`.  Handed the missing node the collaborator fails, and the binding lets the
failure propagate (`none`). -/
def Grid.fnSelect {α : Type} (g : Grid α) : Option Nat → Option (Grid α)
  | none => none
  | some node => some { g with selectCalls := g.selectCalls ++ [node] }

/-- The loop of `tableData.init`: `for (i = 0; i < data.length; ++i) value.push(data[i]);`. -/
def pushEach {α : Type} : List α → ObservableArray α → ObservableArray α
  | [], value => value
  | d :: rest, value => pushEach rest (value.push d)

/-- The function `ko.bindingHandlers.tableData.init`: read the widget's dataset and push
every row into the target observable array. -/
def tableDataInit {α : Type} (g : Grid α) (value : ObservableArray α) : ObservableArray α :=
  let data := g.fnGetData
  pushEach data value

/-- The function `ko.bindingHandlers.tableData.update`: `dt.fnClearTable()` then
`dt.fnAddData(val)` with `val` the target's current value. -/
def tableDataUpdate {α : Type} (g : Grid α) (value : ObservableArray α) : Grid α :=
  let val := value.value
  let dt := g
  (dt.fnClearTable).fnAddData val

/-- The inner loop of `selectedRows.update` for one `val[i]`:
`for (j = 0; j < data.length; ++j) if (_.isEqual(data[j], val[i])) tools.fnSelect(dt.fnGetNodes(j));`.
The list is the part of `data` from index `j` on; a failing `fnSelect` ends the run. -/
def selectMatches {α : Type} (isEqual : α → α → Bool) (v : α) :
    List α → Nat → Grid α → Option (Grid α)
  | [], _, g => some g
  | d :: rest, j, g =>
    if isEqual d v then
      match g.fnSelect (g.fnGetNodes j) with
      | none => none
      | some g1 => selectMatches isEqual v rest (j + 1) g1
    else selectMatches isEqual v rest (j + 1) g

/-- The outer loop of `selectedRows.update` over `val`. -/
def selectEach {α : Type} (isEqual : α → α → Bool) (data : List α) :
    List α → Grid α → Option (Grid α)
  | [], g => some g
  | v :: rest, g =>
    match selectMatches isEqual v data 0 g with
    | none => none
    | some g1 => selectEach isEqual data rest g1

/-- The function `ko.bindingHandlers.selectedRows.update`: `val` is the target's value and
`data` is `viewModel.items()`; the grid is only asked for nodes and told to select them.
The result is `none` when the collaborator fails on a node the widget does not have. -/
def selectedRowsUpdate {α : Type} (isEqual : α → α → Bool) (g : Grid α)
    (value : ObservableArray α) (viewModel : SelectableArray α) : Option (Grid α) :=
  let val := value.value
  let data := viewModel.items.value
  selectEach isEqual data val g

/-! ## Facts about `tryNext` -/

section WizardLemmas

variable {σ : Type} (W : Wizard σ)

theorem tryNext_widget (ev : ChangedEvent) (d : Bool) (b : Binding σ) :
    (tryNext W ev d b).2.widget = if d then W.next b.widget else W.previous b.widget := by
  unfold tryNext onChanged
  cases d <;> simp only [Bool.false_eq_true, if_false, if_true] <;> split <;> rfl

theorem tryNext_requests (ev : ChangedEvent) (d : Bool) (b : Binding σ) :
    (tryNext W ev d b).2.requests =
      b.requests ++ [{ direction := d, before := W.step b.widget,
                       after := W.step (if d then W.next b.widget else W.previous b.widget) }] := by
  unfold tryNext onChanged selectedItem
  cases d <;> simp only [Bool.false_eq_true, if_false, if_true] <;> split <;> rfl

theorem tryNext_changed (ev : ChangedEvent) (d : Bool) (b : Binding σ) :
    (tryNext W ev d b).1 =
      decide (W.step b.widget ≠ W.step (if d then W.next b.widget else W.previous b.widget)) := by
  unfold tryNext onChanged selectedItem
  cases d <;> simp only [Bool.false_eq_true, if_false, if_true] <;> split <;> rfl

theorem loopNext_zero (ev : ChangedEvent) (val : Int) (b : Binding σ) :
    loopNext W ev val 0 b = if val > selectedItem W b then none else some b := by
  unfold loopNext
  rfl

theorem loopNext_succ (ev : ChangedEvent) (val : Int) (n : Nat) (b : Binding σ) :
    loopNext W ev val (n + 1) b =
      if val > selectedItem W b then
        (if !(tryNext W ev true b).1 then some (tryNext W ev true b).2
         else loopNext W ev val n (tryNext W ev true b).2)
      else some b := by
  conv_lhs => unfold loopNext

theorem loopPrevious_zero (ev : ChangedEvent) (val : Int) (b : Binding σ) :
    loopPrevious W ev val 0 b = if val < selectedItem W b then none else some b := by
  unfold loopPrevious
  rfl

theorem loopPrevious_succ (ev : ChangedEvent) (val : Int) (n : Nat) (b : Binding σ) :
    loopPrevious W ev val (n + 1) b =
      if val < selectedItem W b then
        (if !(tryNext W ev false b).1 then some (tryNext W ev false b).2
         else loopPrevious W ev val n (tryNext W ev false b).2)
      else some b := by
  conv_lhs => unfold loopPrevious

theorem loopNext_done (ev : ChangedEvent) (val : Int) (fuel : Nat) (b : Binding σ)
    (h : ¬ val > W.step b.widget) : loopNext W ev val fuel b = some b := by
  cases fuel with
  | zero => rw [loopNext_zero]; simp [selectedItem, h]
  | succ n => rw [loopNext_succ]; simp [selectedItem, h]

theorem loopPrevious_done (ev : ChangedEvent) (val : Int) (fuel : Nat) (b : Binding σ)
    (h : ¬ val < W.step b.widget) : loopPrevious W ev val fuel b = some b := by
  cases fuel with
  | zero => rw [loopPrevious_zero]; simp [selectedItem, h]
  | succ n => rw [loopPrevious_succ]; simp [selectedItem, h]

/-- A list of attempts in which nothing follows a refused attempt. -/
theorem stops_cons (a : Attempt) (l : List Attempt)
    (h : a.refused = true → l = [])
    (hl : ∀ pre x post, l = pre ++ x :: post → x.refused = true → post = []) :
    ∀ pre x post, a :: l = pre ++ x :: post → x.refused = true → post = [] := by
  intro pre x post heq hx
  cases pre with
  | nil =>
    simp only [List.nil_append, List.cons.injEq] at heq
    obtain ⟨rfl, rfl⟩ := heq
    exact h hx
  | cons p pre =>
    simp only [List.cons_append, List.cons.injEq] at heq
    exact hl pre x post heq.2 hx

theorem loopNext_spec (hW : W.Obeys) (ev : ChangedEvent) (val : Int) :
    ∀ (fuel : Nat) (b : Binding σ), (val - W.step b.widget).toNat ≤ fuel →
      ∃ r new, loopNext W ev val fuel b = some r ∧ r.requests = b.requests ++ new ∧
        (∀ a ∈ new, a.direction = true) ∧
        new.length ≤ (val - W.step b.widget).toNat ∧
        (∀ pre x post, new = pre ++ x :: post → x.refused = true → post = []) ∧
        W.step b.widget ≤ W.step r.widget ∧
        W.step r.widget ≤ max val (W.step b.widget) := by
  intro fuel
  induction fuel with
  | zero =>
    intro b hb
    have hle : ¬ val > W.step b.widget := by omega
    refine ⟨b, [], loopNext_done W ev val 0 b hle, by simp, by simp, by simp, ?_, le_refl _, le_max_right _ _⟩
    intro pre x post h
    simp at h
  | succ n ih =>
    intro b hb
    by_cases hgt : val > W.step b.widget
    · rw [loopNext_succ, if_pos (by simpa [selectedItem] using hgt), tryNext_changed]
      simp only [if_true]
      rcases hW.1 b.widget with hstep | hstep
      · -- the request succeeded
        have hne : W.step b.widget ≠ W.step (W.next b.widget) := by omega
        simp only [hne, ne_eq, not_false_eq_true, decide_True, Bool.not_true, Bool.false_eq_true,
          if_false]
        have hw := tryNext_widget W ev true b
        simp only [if_true] at hw
        obtain ⟨r, new, hr, hreq, hdir, hlen, hstop, hlo, hhi⟩ :=
          ih (tryNext W ev true b).2 (by rw [hw]; omega)
        rw [hw] at hlo hhi hlen
        refine ⟨r, ⟨true, W.step b.widget, W.step (W.next b.widget)⟩ :: new, hr, ?_, ?_, ?_, ?_,
          by omega, by omega⟩
        · rw [hreq, tryNext_requests]; simp
        · intro a ha
          rcases List.mem_cons.1 ha with rfl | ha
          · rfl
          · exact hdir a ha
        · simp only [List.length_cons]; omega
        · apply stops_cons _ _ _ hstop
          intro href
          simp [Attempt.refused, hne] at href
      · -- the request was refused
        have heq : ¬ (W.step b.widget ≠ W.step (W.next b.widget)) := by simp [hstep]
        simp only [heq, decide_False, Bool.not_false, if_true]
        have hw := tryNext_widget W ev true b
        simp only [if_true] at hw
        refine ⟨_, [⟨true, W.step b.widget, W.step (W.next b.widget)⟩], rfl, ?_, ?_, ?_, ?_, ?_, ?_⟩
        · rw [tryNext_requests]; simp
        · intro a ha
          rw [List.mem_singleton.1 ha]
        · simp only [List.length_singleton]; omega
        · intro pre x post h _
          cases pre with
          | nil => simp at h; exact h.2
          | cons p pre => simp at h
        · rw [hw, hstep]
        · rw [hw, hstep]; exact le_max_right _ _
    · refine ⟨b, [], loopNext_done W ev val _ b hgt, by simp, by simp, by simp, ?_, le_refl _, le_max_right _ _⟩
      intro pre x post h
      simp at h

theorem loopPrevious_spec (hW : W.Obeys) (ev : ChangedEvent) (val : Int) :
    ∀ (fuel : Nat) (b : Binding σ), (W.step b.widget - val).toNat ≤ fuel →
      ∃ r new, loopPrevious W ev val fuel b = some r ∧ r.requests = b.requests ++ new ∧
        (∀ a ∈ new, a.direction = false) ∧
        new.length ≤ (W.step b.widget - val).toNat ∧
        (∀ pre x post, new = pre ++ x :: post → x.refused = true → post = []) ∧
        W.step r.widget ≤ W.step b.widget ∧
        min val (W.step b.widget) ≤ W.step r.widget := by
  intro fuel
  induction fuel with
  | zero =>
    intro b hb
    have hle : ¬ val < W.step b.widget := by omega
    refine ⟨b, [], loopPrevious_done W ev val 0 b hle, by simp, by simp, by simp, ?_, le_refl _,
      min_le_right _ _⟩
    intro pre x post h
    simp at h
  | succ n ih =>
    intro b hb
    by_cases hlt : val < W.step b.widget
    · rw [loopPrevious_succ, if_pos (by simpa [selectedItem] using hlt), tryNext_changed]
      simp only [Bool.false_eq_true, if_false]
      have hw := tryNext_widget W ev false b
      simp only [Bool.false_eq_true, if_false] at hw
      rcases hW.2 b.widget with hstep | hstep
      · -- the request succeeded
        have hne : W.step b.widget ≠ W.step (W.previous b.widget) := by omega
        simp only [hne, ne_eq, not_false_eq_true, decide_True, Bool.not_true, Bool.false_eq_true,
          if_false]
        obtain ⟨r, new, hr, hreq, hdir, hlen, hstop, hhi, hlo⟩ :=
          ih (tryNext W ev false b).2 (by rw [hw]; omega)
        rw [hw] at hlo hhi hlen
        refine ⟨r, ⟨false, W.step b.widget, W.step (W.previous b.widget)⟩ :: new, hr, ?_, ?_, ?_,
          ?_, by omega, by omega⟩
        · rw [hreq, tryNext_requests]; simp
        · intro a ha
          rcases List.mem_cons.1 ha with rfl | ha
          · rfl
          · exact hdir a ha
        · simp only [List.length_cons]; omega
        · apply stops_cons _ _ _ hstop
          intro href
          simp [Attempt.refused, hne] at href
      · -- the request was refused
        have heq : ¬ (W.step b.widget ≠ W.step (W.previous b.widget)) := by simp [hstep]
        simp only [heq, decide_False, Bool.not_false, if_true]
        refine ⟨_, [⟨false, W.step b.widget, W.step (W.previous b.widget)⟩], rfl, ?_, ?_, ?_, ?_,
          ?_, ?_⟩
        · rw [tryNext_requests]; simp
        · intro a ha
          rw [List.mem_singleton.1 ha]
        · simp only [List.length_singleton]; omega
        · intro pre x post h _
          cases pre with
          | nil => simp at h; exact h.2
          | cons p pre => simp at h
        · rw [hw, hstep]
        · rw [hw, hstep]; exact min_le_right _ _
    · refine ⟨b, [], loopPrevious_done W ev val _ b hlt, by simp, by simp, by simp, ?_, le_refl _,
        min_le_right _ _⟩
      intro pre x post h
      simp at h

theorem loopNext_mono (ev : ChangedEvent) (val : Int) :
    ∀ (fuel : Nat) (b r : Binding σ), loopNext W ev val fuel b = some r →
      ∀ k, loopNext W ev val (fuel + k) b = some r := by
  intro fuel
  induction fuel with
  | zero =>
    intro b r h k
    rw [loopNext_zero] at h
    by_cases hgt : val > selectedItem W b
    · simp [hgt] at h
    · simp only [hgt, if_false, Option.some.injEq] at h
      subst h
      exact loopNext_done W ev val _ b hgt
  | succ n ih =>
    intro b r h k
    rw [loopNext_succ] at h
    rw [show n + 1 + k = (n + k) + 1 by omega, loopNext_succ]
    by_cases hgt : val > selectedItem W b
    · simp only [hgt, if_true] at h ⊢
      by_cases hc : (tryNext W ev true b).1 = true
      · simp only [hc, Bool.not_true, Bool.false_eq_true, if_false] at h ⊢
        exact ih _ _ h k
      · simp only [Bool.not_eq_true] at hc
        simp only [hc, Bool.not_false, if_true] at h ⊢
        exact h
    · simp only [hgt, if_false] at h ⊢
      exact h

theorem loopPrevious_mono (ev : ChangedEvent) (val : Int) :
    ∀ (fuel : Nat) (b r : Binding σ), loopPrevious W ev val fuel b = some r →
      ∀ k, loopPrevious W ev val (fuel + k) b = some r := by
  intro fuel
  induction fuel with
  | zero =>
    intro b r h k
    rw [loopPrevious_zero] at h
    by_cases hlt : val < selectedItem W b
    · simp [hlt] at h
    · simp only [hlt, if_false, Option.some.injEq] at h
      subst h
      exact loopPrevious_done W ev val _ b hlt
  | succ n ih =>
    intro b r h k
    rw [loopPrevious_succ] at h
    rw [show n + 1 + k = (n + k) + 1 by omega, loopPrevious_succ]
    by_cases hlt : val < selectedItem W b
    · simp only [hlt, if_true] at h ⊢
      by_cases hc : (tryNext W ev false b).1 = true
      · simp only [hc, Bool.not_true, Bool.false_eq_true, if_false] at h ⊢
        exact ih _ _ h k
      · simp only [Bool.not_eq_true] at hc
        simp only [hc, Bool.not_false, if_true] at h ⊢
        exact h
    · simp only [hlt, if_false] at h ⊢
      exact h

theorem update_mono (ev : ChangedEvent) (fuel : Nat) (b r : Binding σ)
    (h : update W ev fuel b = some r) (k : Nat) : update W ev (fuel + k) b = some r := by
  unfold update at h ⊢
  dsimp only at h ⊢
  cases h1 : loopNext W ev b.value fuel b with
  | none => simp [h1] at h
  | some b1 =>
    rw [h1] at h
    dsimp only at h
    rw [loopNext_mono W ev b.value fuel b b1 h1 k]
    dsimp only
    cases h2 : loopPrevious W ev b.value fuel b1 with
    | none => simp [h2] at h
    | some b2 =>
      rw [h2] at h
      rw [loopPrevious_mono W ev b.value fuel b1 b2 h2 k]
      exact h

theorem update_value (ev : ChangedEvent) (fuel : Nat) (b r : Binding σ)
    (h : update W ev fuel b = some r) : r.value = W.step r.widget := by
  unfold update at h
  dsimp only at h
  cases h1 : loopNext W ev b.value fuel b with
  | none => simp [h1] at h
  | some b1 =>
    rw [h1] at h
    dsimp only at h
    cases h2 : loopPrevious W ev b.value fuel b1 with
    | none => simp [h2] at h
    | some b2 =>
      rw [h2] at h
      simp only [Option.some.injEq] at h
      subst h
      rfl

theorem update_spec (hW : W.Obeys) (ev : ChangedEvent) (fuel : Nat) (b : Binding σ)
    (hf : enoughFuel W b ≤ fuel) :
    ∃ r new, update W ev fuel b = some r ∧ r.value = W.step r.widget ∧
      r.requests = b.requests ++ new ∧
      (∀ a ∈ new, a.direction = true → W.step b.widget < b.value) ∧
      (∀ a ∈ new, a.direction = false → b.value < W.step b.widget) ∧
      new.length ≤ (b.value - W.step b.widget).natAbs ∧
      (∀ pre x post, new = pre ++ x :: post → x.refused = true → post = []) ∧
      min (W.step b.widget) b.value ≤ W.step r.widget ∧
      W.step r.widget ≤ max (W.step b.widget) b.value := by
  unfold enoughFuel selectedItem at hf
  by_cases hgt : b.value > W.step b.widget
  · obtain ⟨r1, new, h1, hreq, hdir, hlen, hstop, hlo, hhi⟩ :=
      loopNext_spec W hW ev b.value fuel b (by omega)
    have h2 : loopPrevious W ev b.value fuel r1 = some r1 :=
      loopPrevious_done W ev b.value fuel r1 (by omega)
    refine ⟨{ r1 with value := selectedItem W r1 }, new, ?_, rfl, hreq, ?_, ?_, by omega, hstop, ?_, ?_⟩
    · unfold update
      simp only [h1, h2]
    · intro a _ _
      exact hgt
    · intro a ha hfalse
      rw [hdir a ha] at hfalse
      cases hfalse
    · show min (W.step b.widget) b.value ≤ W.step r1.widget
      omega
    · show W.step r1.widget ≤ max (W.step b.widget) b.value
      omega
  · have h1 : loopNext W ev b.value fuel b = some b := loopNext_done W ev b.value fuel b hgt
    obtain ⟨r2, new, h2, hreq, hdir, hlen, hstop, hhi, hlo⟩ :=
      loopPrevious_spec W hW ev b.value fuel b (by omega)
    refine ⟨{ r2 with value := selectedItem W r2 }, new, ?_, rfl, hreq, ?_, ?_, by omega, hstop, ?_, ?_⟩
    · unfold update
      simp only [h1, h2]
    · intro a ha htrue
      rw [hdir a ha] at htrue
      cases htrue
    · intro a ha _
      by_contra hcon
      have h0 : new.length = 0 := by omega
      rw [List.length_eq_zero] at h0
      subst h0
      simp at ha
    · show min (W.step b.widget) b.value ≤ W.step r2.widget
      omega
    · show W.step r2.widget ≤ max (W.step b.widget) b.value
      omega

theorem update_total (hW : W.Obeys) (ev : ChangedEvent) (b : Binding σ) :
    ∃ r, ∀ fuel, enoughFuel W b ≤ fuel → update W ev fuel b = some r := by
  obtain ⟨r, _, hr, _⟩ := update_spec W hW ev (enoughFuel W b) b (le_refl _)
  refine ⟨r, fun fuel hf => ?_⟩
  obtain ⟨k, rfl⟩ := Nat.exists_eq_add_of_le hf
  exact update_mono W ev _ b r hr k

theorem update_fixed (ev : ChangedEvent) (fuel : Nat) (b : Binding σ)
    (h : b.value = W.step b.widget) : update W ev fuel b = some b := by
  have h1 : loopNext W ev b.value fuel b = some b := loopNext_done W ev b.value fuel b (by omega)
  have h2 : loopPrevious W ev b.value fuel b = some b :=
    loopPrevious_done W ev b.value fuel b (by omega)
  unfold update
  simp only [h1, h2, selectedItem, ← h]

theorem tryNext_event (ev ev' : ChangedEvent) (d : Bool) (b b' : Binding σ)
    (hw : b.widget = b'.widget) (hr : b.requests = b'.requests) :
    (tryNext W ev d b).1 = (tryNext W ev' d b').1 ∧
    (tryNext W ev d b).2.widget = (tryNext W ev' d b').2.widget ∧
    (tryNext W ev d b).2.requests = (tryNext W ev' d b').2.requests := by
  simp only [tryNext_changed, tryNext_widget, tryNext_requests, hw, hr, and_self]

theorem loopNext_event (ev ev' : ChangedEvent) (val : Int) :
    ∀ (fuel : Nat) (b b' : Binding σ), b.widget = b'.widget → b.requests = b'.requests →
      (loopNext W ev val fuel b).map outcome = (loopNext W ev' val fuel b').map outcome := by
  intro fuel
  induction fuel with
  | zero =>
    intro b b' hw hr
    rw [loopNext_zero, loopNext_zero]
    simp only [selectedItem, hw]
    split <;> simp [outcome, hw, hr]
  | succ n ih =>
    intro b b' hw hr
    obtain ⟨hc, hw1, hr1⟩ := tryNext_event W ev ev' true b b' hw hr
    rw [loopNext_succ, loopNext_succ]
    simp only [selectedItem, hw, hc]
    split
    · split
      · simp [outcome, hw1, hr1]
      · exact ih _ _ hw1 hr1
    · simp [outcome, hw, hr]

theorem loopPrevious_event (ev ev' : ChangedEvent) (val : Int) :
    ∀ (fuel : Nat) (b b' : Binding σ), b.widget = b'.widget → b.requests = b'.requests →
      (loopPrevious W ev val fuel b).map outcome =
        (loopPrevious W ev' val fuel b').map outcome := by
  intro fuel
  induction fuel with
  | zero =>
    intro b b' hw hr
    rw [loopPrevious_zero, loopPrevious_zero]
    simp only [selectedItem, hw]
    split <;> simp [outcome, hw, hr]
  | succ n ih =>
    intro b b' hw hr
    obtain ⟨hc, hw1, hr1⟩ := tryNext_event W ev ev' false b b' hw hr
    rw [loopPrevious_succ, loopPrevious_succ]
    simp only [selectedItem, hw, hc]
    split
    · split
      · simp [outcome, hw1, hr1]
      · exact ih _ _ hw1 hr1
    · simp [outcome, hw, hr]

theorem update_event (ev ev' : ChangedEvent) (fuel : Nat) (b : Binding σ) :
    update W ev fuel b = update W ev' fuel b := by
  have h1 := loopNext_event W ev ev' b.value fuel b b rfl rfl
  unfold update
  dsimp only
  cases e1 : loopNext W ev b.value fuel b with
  | none =>
    rw [e1] at h1
    cases e1' : loopNext W ev' b.value fuel b with
    | none => rfl
    | some c => rw [e1'] at h1; simp at h1
  | some b1 =>
    rw [e1] at h1
    cases e1' : loopNext W ev' b.value fuel b with
    | none => rw [e1'] at h1; simp at h1
    | some c1 =>
      rw [e1'] at h1
      simp only [Option.map_some', Option.some.injEq, outcome, Prod.mk.injEq] at h1
      have h2 := loopPrevious_event W ev ev' b.value fuel b1 c1 h1.1 h1.2
      dsimp only
      cases e2 : loopPrevious W ev b.value fuel b1 with
      | none =>
        rw [e2] at h2
        cases e2' : loopPrevious W ev' b.value fuel c1 with
        | none => rfl
        | some c => rw [e2'] at h2; simp at h2
      | some b2 =>
        rw [e2] at h2
        cases e2' : loopPrevious W ev' b.value fuel c1 with
        | none => rw [e2'] at h2; simp at h2
        | some c2 =>
          rw [e2'] at h2
          simp only [Option.map_some', Option.some.injEq, outcome, Prod.mk.injEq] at h2
          cases b2
          cases c2
          simp only at h2
          simp [selectedItem, h2.1, h2.2]

theorem update_stalled (ev : ChangedEvent) (k : Int) (b : Binding σ)
    (hcur : W.step b.widget = k) (hval : b.value = k + 2)
    (hrefuse : ∀ w, W.step w = k → W.step (W.next w) = k) :
    ∀ fuel r, update W ev fuel b = some r → W.step r.widget = k ∧ r.value = k := by
  intro fuel r h
  have hv := update_value W ev fuel b r h
  have hgt : b.value > selectedItem W b := by simp only [selectedItem]; omega
  cases fuel with
  | zero =>
    unfold update at h
    simp [loopNext_zero, hgt] at h
  | succ n =>
    have hnext := hrefuse b.widget hcur
    have hw := tryNext_widget W ev true b
    simp only [if_true] at hw
    have h1 : loopNext W ev b.value (n + 1) b = some (tryNext W ev true b).2 := by
      rw [loopNext_succ, if_pos hgt, tryNext_changed]
      simp [hnext, hcur]
    have h2 : loopPrevious W ev b.value (n + 1) (tryNext W ev true b).2
        = some (tryNext W ev true b).2 :=
      loopPrevious_done W ev b.value _ _ (by rw [hw, hnext]; omega)
    unfold update at h
    simp only [h1, h2, Option.some.injEq] at h
    subst h
    refine ⟨?_, ?_⟩
    · show W.step (tryNext W ev true b).2.widget = k
      rw [hw, hnext]
    · show selectedItem W (tryNext W ev true b).2 = k
      simp only [selectedItem, hw, hnext]

theorem loopNext_converges (ev : ChangedEvent) (val : Int) (w0 : σ)
    (hpath : ∀ k : Nat, (k : Int) < val - W.step w0 →
      W.step (W.next (Nat.iterate W.next k w0)) = W.step (Nat.iterate W.next k w0) + 1) :
    ∀ (fuel : Nat) (b : Binding σ) (j : Nat), b.widget = Nat.iterate W.next j w0 →
      W.step b.widget = W.step w0 + j → W.step b.widget ≤ val →
      (val - W.step b.widget).toNat ≤ fuel →
      ∃ r, loopNext W ev val fuel b = some r ∧ W.step r.widget = val := by
  intro fuel
  induction fuel with
  | zero =>
    intro b j _ _ hle hf
    exact ⟨b, loopNext_done W ev val 0 b (by omega), by omega⟩
  | succ n ih =>
    intro b j hb hj hle hf
    by_cases hgt : val > W.step b.widget
    · have hstep := hpath j (by omega)
      rw [← hb] at hstep
      have hw := tryNext_widget W ev true b
      simp only [if_true] at hw
      have hne : W.step b.widget ≠ W.step (W.next b.widget) := by omega
      have hiter : (tryNext W ev true b).2.widget = Nat.iterate W.next (j + 1) w0 := by
        rw [hw, hb, Function.iterate_succ_apply']
      obtain ⟨r, hr, hrv⟩ := ih (tryNext W ev true b).2 (j + 1) hiter
        (by rw [hw, hstep, hj]; push_cast; omega) (by rw [hw]; omega) (by rw [hw]; omega)
      refine ⟨r, ?_, hrv⟩
      rw [loopNext_succ, if_pos (by simpa [selectedItem] using hgt), tryNext_changed]
      simpa [hne] using hr
    · exact ⟨b, loopNext_done W ev val _ b hgt, by omega⟩

theorem loopPrevious_converges (ev : ChangedEvent) (val : Int) (w0 : σ)
    (hpath : ∀ k : Nat, (k : Int) < W.step w0 - val →
      W.step (W.previous (Nat.iterate W.previous k w0)) =
        W.step (Nat.iterate W.previous k w0) - 1) :
    ∀ (fuel : Nat) (b : Binding σ) (j : Nat), b.widget = Nat.iterate W.previous j w0 →
      W.step b.widget = W.step w0 - j → val ≤ W.step b.widget →
      (W.step b.widget - val).toNat ≤ fuel →
      ∃ r, loopPrevious W ev val fuel b = some r ∧ W.step r.widget = val := by
  intro fuel
  induction fuel with
  | zero =>
    intro b j _ _ hle hf
    exact ⟨b, loopPrevious_done W ev val 0 b (by omega), by omega⟩
  | succ n ih =>
    intro b j hb hj hle hf
    by_cases hlt : val < W.step b.widget
    · have hstep := hpath j (by omega)
      rw [← hb] at hstep
      have hw := tryNext_widget W ev false b
      simp only [Bool.false_eq_true, if_false] at hw
      have hne : W.step b.widget ≠ W.step (W.previous b.widget) := by omega
      have hiter : (tryNext W ev false b).2.widget = Nat.iterate W.previous (j + 1) w0 := by
        rw [hw, hb, Function.iterate_succ_apply']
      obtain ⟨r, hr, hrv⟩ := ih (tryNext W ev false b).2 (j + 1) hiter
        (by rw [hw, hstep, hj]; push_cast; omega) (by rw [hw]; omega) (by rw [hw]; omega)
      refine ⟨r, ?_, hrv⟩
      rw [loopPrevious_succ, if_pos (by simpa [selectedItem] using hlt), tryNext_changed]
      simpa [hne] using hr
    · exact ⟨b, loopPrevious_done W ev val _ b hlt, by omega⟩

theorem update_converges (ev : ChangedEvent) (b : Binding σ)
    (hnext : ∀ k : Nat, (k : Int) < b.value - W.step b.widget →
      W.step (W.next (Nat.iterate W.next k b.widget)) =
        W.step (Nat.iterate W.next k b.widget) + 1)
    (hprev : ∀ k : Nat, (k : Int) < W.step b.widget - b.value →
      W.step (W.previous (Nat.iterate W.previous k b.widget)) =
        W.step (Nat.iterate W.previous k b.widget) - 1) :
    ∃ r, (∀ fuel, enoughFuel W b ≤ fuel → update W ev fuel b = some r) ∧
      W.step r.widget = b.value ∧ r.value = b.value := by
  have key : ∃ r, update W ev (enoughFuel W b) b = some r ∧ W.step r.widget = b.value := by
    unfold enoughFuel selectedItem
    by_cases hgt : b.value > W.step b.widget
    · obtain ⟨r1, h1, hv⟩ := loopNext_converges W ev b.value b.widget hnext
        (b.value - W.step b.widget).natAbs b 0 rfl (by simp) (by omega) (by omega)
      have h2 := loopPrevious_done W ev b.value (b.value - W.step b.widget).natAbs r1 (by omega)
      refine ⟨{ r1 with value := selectedItem W r1 }, ?_, hv⟩
      unfold update
      simp only [h1, h2]
    · have h1 := loopNext_done W ev b.value (b.value - W.step b.widget).natAbs b hgt
      obtain ⟨r2, h2, hv⟩ := loopPrevious_converges W ev b.value b.widget hprev
        (b.value - W.step b.widget).natAbs b 0 rfl (by simp) (by omega) (by omega)
      refine ⟨{ r2 with value := selectedItem W r2 }, ?_, hv⟩
      unfold update
      simp only [h1, h2]
  obtain ⟨r, hr, hv⟩ := key
  refine ⟨r, fun fuel hf => ?_, hv, ?_⟩
  · obtain ⟨k, rfl⟩ := Nat.exists_eq_add_of_le hf
    exact update_mono W ev _ b r hr k
  · rw [update_value W ev _ b r hr, hv]

end WizardLemmas

theorem gatedWizard_obeys (N : Int) (gate : Int → Bool) : (gatedWizard N gate).Obeys := by
  constructor
  · intro w
    simp only [gatedWizard]
    split
    · left; rfl
    · right; rfl
  · intro w
    simp only [gatedWizard]
    split
    · left; rfl
    · right; rfl

/-! ## Facts about observable arrays and the grid -/

section ArrayLemmas

variable {α : Type}

theorem removeWhere_eq_filter (p : α → Bool) (l : List α) :
    removeWhere p l = l.filter (fun x => !p x) := by
  induction l with
  | nil => rfl
  | cons x xs ih =>
    unfold removeWhere
    by_cases hp : p x = true
    · simp [hp, ih]
    · simp [hp, ih]

theorem isSelected_eq_any (isEqual : α → α → Bool) (selected : List α) (item : α) :
    isSelected isEqual selected item = selected.any (fun s => isEqual s item) := by
  induction selected with
  | nil => rfl
  | cons s rest ih =>
    unfold isSelected
    by_cases hs : isEqual s item = true
    · simp [hs]
    · simp [hs, ih]

theorem removeSelected_items (isEqual : α → α → Bool) (m : SelectableArray α) :
    (removeSelected isEqual m).items.value =
      m.items.value.filter
        (fun item => !(m.selectedItems.value.any (fun s => isEqual s item))) := by
  simp only [removeSelected, ObservableArray.remove, ObservableArray.valueHasMutated,
    removeWhere_eq_filter, isSelected_eq_any]

theorem removeSelected_selectedItems (isEqual : α → α → Bool) (m : SelectableArray α) :
    (removeSelected isEqual m).selectedItems.value = [] := by
  simp only [removeSelected, ObservableArray.removeAll, ObservableArray.valueHasMutated]

theorem pushEach_value (data : List α) :
    ∀ value : ObservableArray α, (pushEach data value).value = value.value ++ data := by
  induction data with
  | nil => intro value; simp [pushEach]
  | cons d rest ih =>
    intro value
    rw [pushEach, ih]
    simp [ObservableArray.push]

theorem selectMatches_spec (isEqual : α → α → Bool) (v : α) :
    ∀ (data : List α) (j : Nat) (g : Grid α), j + data.length ≤ g.data.length →
      ∃ g1 calls, selectMatches isEqual v data j g = some g1 ∧
        g1.selectCalls = g.selectCalls ++ calls ∧ g1.data = g.data ∧
        ∀ k, k ∈ calls ↔ ∃ i row, data[i]? = some row ∧ k = j + i ∧ isEqual row v = true := by
  intro data
  induction data with
  | nil =>
    intro j g _
    exact ⟨g, [], rfl, by simp, rfl, by simp⟩
  | cons d rest ih =>
    intro j g hlen
    simp only [List.length_cons] at hlen
    by_cases hdv : isEqual d v = true
    · have hnode : g.fnSelect (g.fnGetNodes j)
          = some { g with selectCalls := g.selectCalls ++ [j] } := by
        have hj : j < g.data.length := by omega
        simp [Grid.fnGetNodes, Grid.fnSelect, hj]
      obtain ⟨g1, calls, hg1, hc, hd, hmem⟩ :=
        ih (j + 1) { g with selectCalls := g.selectCalls ++ [j] } (by simpa using by omega)
      refine ⟨g1, j :: calls, ?_, ?_, ?_, ?_⟩
      · rw [selectMatches, if_pos hdv, hnode]
        exact hg1
      · rw [hc]; simp
      · rw [hd]
      · intro k
        rw [List.mem_cons, hmem]
        constructor
        · rintro (rfl | ⟨i, row, hi, hk, hr⟩)
          · exact ⟨0, d, by simp, rfl, hdv⟩
          · exact ⟨i + 1, row, by simpa using hi, by omega, hr⟩
        · rintro ⟨i, row, hi, hk, hr⟩
          cases i with
          | zero => left; simpa using hk
          | succ i => right; exact ⟨i, row, by simpa using hi, by omega, hr⟩
    · obtain ⟨g1, calls, hg1, hc, hd, hmem⟩ := ih (j + 1) g (by omega)
      refine ⟨g1, calls, ?_, hc, hd, ?_⟩
      · rw [selectMatches, if_neg hdv]
        exact hg1
      · intro k
        rw [hmem]
        constructor
        · rintro ⟨i, row, hi, hk, hr⟩
          exact ⟨i + 1, row, by simpa using hi, by omega, hr⟩
        · rintro ⟨i, row, hi, hk, hr⟩
          cases i with
          | zero =>
            simp only [List.getElem?_cons_zero, Option.some.injEq] at hi
            subst hi
            exact absurd hr hdv
          | succ i => exact ⟨i, row, by simpa using hi, by omega, hr⟩

theorem selectEach_spec (isEqual : α → α → Bool) (data : List α) :
    ∀ (val : List α) (g : Grid α), data.length ≤ g.data.length →
      ∃ g2 calls, selectEach isEqual data val g = some g2 ∧
        g2.selectCalls = g.selectCalls ++ calls ∧ g2.data = g.data ∧
        ∀ k, k ∈ calls ↔ ∃ row, data[k]? = some row ∧ ∃ v ∈ val, isEqual row v = true := by
  intro val
  induction val with
  | nil =>
    intro g _
    exact ⟨g, [], rfl, by simp, rfl, by simp⟩
  | cons v rest ih =>
    intro g hlen
    obtain ⟨g1, c1, hg1, hc1, hd1, hm1⟩ := selectMatches_spec isEqual v data 0 g (by omega)
    obtain ⟨g2, c2, hg2, hc2, hd2, hm2⟩ := ih g1 (by rw [hd1]; exact hlen)
    refine ⟨g2, c1 ++ c2, ?_, ?_, ?_, ?_⟩
    · rw [selectEach, hg1]
      exact hg2
    · rw [hc2, hc1, List.append_assoc]
    · rw [hd2, hd1]
    · intro k
      rw [List.mem_append, hm1, hm2]
      constructor
      · rintro (⟨i, row, hi, hk, hr⟩ | ⟨row, hi, w, hw, hr⟩)
        · have : k = i := by omega
          subst this
          exact ⟨row, hi, v, List.mem_cons_self _ _, hr⟩
        · exact ⟨row, hi, w, List.mem_cons_of_mem _ hw, hr⟩
      · rintro ⟨row, hi, w, hw, hr⟩
        rcases List.mem_cons.1 hw with rfl | hw
        · left; exact ⟨k, row, hi, by omega, hr⟩
        · right; exact ⟨row, hi, w, hw, hr⟩

end ArrayLemmas

/-! ## The wizard step binding -/

/-- C1: on every wizard obeying the state machine (refusing widgets included),
`wizardStep.update` returns for every desired step and every starting step: there is one
result that every run with at least `enoughFuel` loop iterations produces. -/
theorem wizardStep_update_terminates {σ : Type} (W : Wizard σ) (hW : W.Obeys)
    (ev : ChangedEvent) (b : Binding σ) :
    ∃ r, ∀ fuel, enoughFuel W b ≤ fuel → update W ev fuel b = some r :=
  update_total W hW ev b

/-- The stalled wizard of C1: step `1 → 2` is always refused, `val = 3` is requested from
step `1`, and `update` returns. -/
theorem wizardStep_update_terminates_witness :
    (gatedWizard 5 (fun k => decide (k = 1))).Obeys ∧
    ∃ r, ∀ fuel, enoughFuel (gatedWizard 5 (fun k => decide (k = 1))) ⟨1, 3, []⟩ ≤ fuel →
      update (gatedWizard 5 (fun k => decide (k = 1))) ChangedEvent.always fuel ⟨1, 3, []⟩
        = some r :=
  ⟨gatedWizard_obeys _ _,
   wizardStep_update_terminates (gatedWizard 5 (fun k => decide (k = 1)))
     (gatedWizard_obeys _ _) ChangedEvent.always ⟨1, 3, []⟩⟩

/-- C2: on every wizard obeying the state machine `wizardStep.update` returns, and whenever
it returns the target observable holds the widget's current step; if moreover step
`k → k+1` is always refused and `val = k + 2` is requested from step `k`, the widget is
still at `k` and the target is corrected to `k`. -/
theorem wizardStep_update_writes_back {σ : Type} (W : Wizard σ) (hW : W.Obeys)
    (ev : ChangedEvent) (b : Binding σ) :
    (∃ r, ∀ fuel, enoughFuel W b ≤ fuel → update W ev fuel b = some r) ∧
    (∀ fuel r, update W ev fuel b = some r → r.value = W.step r.widget) ∧
    (∀ k, W.step b.widget = k → b.value = k + 2 →
      (∀ w, W.step w = k → W.step (W.next w) = k) →
      ∀ fuel r, update W ev fuel b = some r → W.step r.widget = k ∧ r.value = k) :=
  ⟨update_total W hW ev b,
   fun fuel r h => update_value W ev fuel b r h,
   fun k hcur hval hrefuse => update_stalled W ev k b hcur hval hrefuse⟩

/-- The stalled wizard of C2: from step `1` with `val = 3` and `1 → 2` refused, the run
with two units of fuel ends at step `1` with the target corrected to `1`, and so does every
run that returns. -/
theorem wizardStep_update_writes_back_witness :
    (gatedWizard 5 (fun k => decide (k = 1))).Obeys ∧
    update (gatedWizard 5 (fun k => decide (k = 1))) ChangedEvent.onSuccess 2 ⟨1, 3, []⟩
        = some ⟨1, 1, [⟨true, 1, 1⟩]⟩ ∧
    (∀ fuel r,
      update (gatedWizard 5 (fun k => decide (k = 1))) ChangedEvent.onSuccess fuel ⟨1, 3, []⟩
        = some r →
      (gatedWizard 5 (fun k => decide (k = 1))).step r.widget = 1 ∧ r.value = 1) :=
  ⟨gatedWizard_obeys _ _, by decide,
   (wizardStep_update_writes_back (gatedWizard 5 (fun k => decide (k = 1)))
      (gatedWizard_obeys _ _) ChangedEvent.onSuccess ⟨1, 3, []⟩).2.2 1 rfl rfl
      (by intro w hw; simp only [gatedWizard] at hw ⊢; subst hw; decide)⟩

/-- C3: on a wizard with steps `0..N`, for a starting step and a requested `val` in
`[0, N]` such that no transition on the path from the starting step to `val` is refused
(each request the run sends on its way, `'next'` after `k` earlier `'next'` requests for
`k < val - start`, or `'previous'` after `k` earlier `'previous'` requests for
`k < start - val`, moves the step by one), `wizardStep.update` returns with the widget at
`val` and the target equal to `val`.  The bounds are those of the claim; the proof does
not need them. -/
theorem wizardStep_update_converges {σ : Type} (W : Wizard σ) (N : Int)
    (ev : ChangedEvent) (b : Binding σ)
    (_hstart : 0 ≤ W.step b.widget ∧ W.step b.widget ≤ N)
    (_hval : 0 ≤ b.value ∧ b.value ≤ N)
    (hnext : ∀ k : Nat, (k : Int) < b.value - W.step b.widget →
      W.step (W.next (Nat.iterate W.next k b.widget)) =
        W.step (Nat.iterate W.next k b.widget) + 1)
    (hprev : ∀ k : Nat, (k : Int) < W.step b.widget - b.value →
      W.step (W.previous (Nat.iterate W.previous k b.widget)) =
        W.step (Nat.iterate W.previous k b.widget) - 1) :
    ∃ r, (∀ fuel, enoughFuel W b ≤ fuel → update W ev fuel b = some r) ∧
      W.step r.widget = b.value ∧ r.value = b.value :=
  update_converges W ev b hnext hprev

/-- The latch wizard driven from step `0` with the latch set to `val = 3`: no request of
the run is refused, although `'next'` is refused at the unvisited state `(1, false)`. -/
theorem wizardStep_update_converges_witness :
    latchWizard.step (latchWizard.next (1, false)) = latchWizard.step (1, false) ∧
    update latchWizard ChangedEvent.always 3 ⟨(0, true), 3, []⟩
      = some ⟨(3, true), 3, [⟨true, 0, 1⟩, ⟨true, 1, 2⟩, ⟨true, 2, 3⟩]⟩ ∧
    ∃ r : Binding (Int × Bool),
      (∀ fuel, enoughFuel latchWizard ⟨(0, true), 3, []⟩ ≤ fuel →
        update latchWizard ChangedEvent.always fuel ⟨(0, true), 3, []⟩ = some r) ∧
      latchWizard.step r.widget = 3 ∧ r.value = 3 :=
  ⟨by decide, by decide,
   wizardStep_update_converges latchWizard 5 ChangedEvent.always ⟨(0, true), 3, []⟩
    (by decide) (by decide)
    (by
      intro k hk
      have hk3 : k < 3 := by
        simp only [latchWizard] at hk
        omega
      interval_cases k <;> decide)
    (by
      intro k hk
      simp only [latchWizard] at hk
      omega)⟩

/-- C5: on every wizard obeying the state machine, the state `r` that `update` produces
has its target equal to the widget's step, and running `update` again on `r` (whatever the
`'changed'` behaviour and the fuel) returns `r` itself: no request is added to the
record, and the widget and the target are unchanged. -/
theorem wizardStep_update_reentrant {σ : Type} (W : Wizard σ) (hW : W.Obeys)
    (ev ev2 : ChangedEvent) (b : Binding σ) :
    ∃ r, (∀ fuel, enoughFuel W b ≤ fuel → update W ev fuel b = some r) ∧
      r.value = W.step r.widget ∧
      ∀ fuel, update W ev2 fuel r = some r := by
  obtain ⟨r, hr⟩ := update_total W hW ev b
  have hv := update_value W ev _ b r (hr _ (le_refl _))
  exact ⟨r, hr, hv, fun fuel => update_fixed W ev2 fuel r hv⟩

/-- A second run on the result of the stalled run of C2 changes nothing. -/
theorem wizardStep_update_reentrant_witness :
    (gatedWizard 5 (fun k => decide (k = 1))).Obeys ∧
    ∃ r, (∀ fuel, enoughFuel (gatedWizard 5 (fun k => decide (k = 1))) ⟨1, 3, []⟩ ≤ fuel →
        update (gatedWizard 5 (fun k => decide (k = 1))) ChangedEvent.always fuel ⟨1, 3, []⟩
          = some r) ∧
      r.value = (gatedWizard 5 (fun k => decide (k = 1))).step r.widget ∧
      ∀ fuel, update (gatedWizard 5 (fun k => decide (k = 1))) ChangedEvent.always fuel r
        = some r :=
  ⟨gatedWizard_obeys _ _,
   wizardStep_update_reentrant (gatedWizard 5 (fun k => decide (k = 1)))
     (gatedWizard_obeys _ _) ChangedEvent.always ChangedEvent.always ⟨1, 3, []⟩⟩

/-- C9: the requests issued, the final widget and the final target of `wizardStep.update`
do not depend on the `'changed'` event: with the listener of `wizardStep.init` running
after every attempt, only after successful ones, or never, every run gives the same
result, and on a wizard obeying the state machine that result exists. -/
theorem wizardStep_update_changed_event {σ : Type} (W : Wizard σ) (hW : W.Obeys)
    (b : Binding σ) :
    (∀ fuel, update W ChangedEvent.always fuel b = update W ChangedEvent.onSuccess fuel b ∧
      update W ChangedEvent.onSuccess fuel b = update W ChangedEvent.never fuel b) ∧
    ∃ r, ∀ ev fuel, enoughFuel W b ≤ fuel → update W ev fuel b = some r := by
  refine ⟨fun fuel => ⟨update_event W _ _ fuel b, update_event W _ _ fuel b⟩, ?_⟩
  obtain ⟨r, hr⟩ := update_total W hW ChangedEvent.never b
  exact ⟨r, fun ev fuel hf => by rw [update_event W ev ChangedEvent.never fuel b]; exact hr fuel hf⟩

/-- The three event behaviours on a gated wizard asked to go from step `0` to step `4`
with `2 → 3` refused. -/
theorem wizardStep_update_changed_event_witness :
    (gatedWizard 5 (fun k => decide (k = 2))).Obeys ∧
    ((∀ fuel,
      update (gatedWizard 5 (fun k => decide (k = 2))) ChangedEvent.always fuel ⟨0, 4, []⟩
        = update (gatedWizard 5 (fun k => decide (k = 2))) ChangedEvent.onSuccess fuel ⟨0, 4, []⟩ ∧
      update (gatedWizard 5 (fun k => decide (k = 2))) ChangedEvent.onSuccess fuel ⟨0, 4, []⟩
        = update (gatedWizard 5 (fun k => decide (k = 2))) ChangedEvent.never fuel ⟨0, 4, []⟩) ∧
    ∃ r, ∀ ev fuel, enoughFuel (gatedWizard 5 (fun k => decide (k = 2))) ⟨0, 4, []⟩ ≤ fuel →
      update (gatedWizard 5 (fun k => decide (k = 2))) ev fuel ⟨0, 4, []⟩ = some r) :=
  ⟨gatedWizard_obeys _ _,
   wizardStep_update_changed_event (gatedWizard 5 (fun k => decide (k = 2)))
     (gatedWizard_obeys _ _) ⟨0, 4, []⟩⟩

/-- C10: on every wizard obeying the state machine, one call of `wizardStep.update` from
step `c0` with desired step `val` returns, and the requests `new` it issued satisfy:
`'next'` only when `c0 < val`, `'previous'` only when `val < c0`, none when `val = c0`, all
in one direction, at most `|val - c0|` of them, nothing after a refused request; and the
widget ends between `c0` and `val` inclusive. -/
theorem wizardStep_update_no_overshoot {σ : Type} (W : Wizard σ) (hW : W.Obeys)
    (ev : ChangedEvent) (b : Binding σ) :
    ∃ r new, (∀ fuel, enoughFuel W b ≤ fuel → update W ev fuel b = some r) ∧
      r.requests = b.requests ++ new ∧
      (∀ a ∈ new, a.direction = true → W.step b.widget < b.value) ∧
      (∀ a ∈ new, a.direction = false → b.value < W.step b.widget) ∧
      (b.value = W.step b.widget → new = []) ∧
      (∀ a ∈ new, ∀ a2 ∈ new, a.direction = a2.direction) ∧
      new.length ≤ (b.value - W.step b.widget).natAbs ∧
      (∀ pre x post, new = pre ++ x :: post → x.refused = true → post = []) ∧
      min (W.step b.widget) b.value ≤ W.step r.widget ∧
      W.step r.widget ≤ max (W.step b.widget) b.value := by
  obtain ⟨r, new, hr, _, hreq, hnext, hprev, hlen, hstop, hlo, hhi⟩ :=
    update_spec W hW ev (enoughFuel W b) b (le_refl _)
  refine ⟨r, new, ?_, hreq, hnext, hprev, ?_, ?_, hlen, hstop, hlo, hhi⟩
  · intro fuel hf
    obtain ⟨k, rfl⟩ := Nat.exists_eq_add_of_le hf
    exact update_mono W ev _ b r hr k
  · intro heq
    have h0 : new.length = 0 := by omega
    exact List.length_eq_zero.1 h0
  · intro a ha a2 ha2
    cases hd : a.direction <;> cases hd2 : a2.direction
    · rfl
    · have h1 := hprev a ha hd
      have h2 := hnext a2 ha2 hd2
      omega
    · have h1 := hnext a ha hd
      have h2 := hprev a2 ha2 hd2
      omega
    · rfl

/-- The gated wizard asked to go from step `0` to step `4` with `2 → 3` refused. -/
theorem wizardStep_update_no_overshoot_witness :
    (gatedWizard 5 (fun k => decide (k = 2))).Obeys ∧
    update (gatedWizard 5 (fun k => decide (k = 2))) ChangedEvent.always 4 ⟨0, 4, []⟩
      = some ⟨2, 2, [⟨true, 0, 1⟩, ⟨true, 1, 2⟩, ⟨true, 2, 2⟩]⟩ ∧
    ∃ (r : Binding Int) (new : List Attempt),
      (∀ fuel, enoughFuel (gatedWizard 5 (fun k => decide (k = 2))) ⟨0, 4, []⟩ ≤ fuel →
        update (gatedWizard 5 (fun k => decide (k = 2))) ChangedEvent.always fuel ⟨0, 4, []⟩
          = some r) ∧
      r.requests = [] ++ new ∧ new.length ≤ 4 := by
  refine ⟨gatedWizard_obeys _ _, by decide, ?_⟩
  obtain ⟨r, new, hr, hreq, _, _, _, _, hlen, _⟩ :=
    wizardStep_update_no_overshoot (gatedWizard 5 (fun k => decide (k = 2)))
      (gatedWizard_obeys _ _) ChangedEvent.always ⟨0, 4, []⟩
  exact ⟨r, new, hr, hreq, hlen⟩

/-! ## Selectable arrays -/

/-- C4: `removeSelected` leaves in `items` exactly the original items that are deep-equal
to no selected element, in their original order (every duplicate of a selected element is
removed), and leaves `selectedItems` empty, so that no remaining item is deep-equal to a
previously selected row; on `items = [{id:1},{id:2},{id:3}]`, `selectedItems = [{id:2}]`
it gives `items = [{id:1},{id:3}]`, `selectedItems = []`. -/
theorem removeSelected_removes_selected {α : Type} (isEqual : α → α → Bool)
    (m : SelectableArray α) :
    (removeSelected isEqual m).items.value =
      m.items.value.filter
        (fun item => !(m.selectedItems.value.any (fun s => isEqual s item))) ∧
    (removeSelected isEqual m).selectedItems.value = [] ∧
    (∀ x, x ∈ (removeSelected isEqual m).items.value ↔
      x ∈ m.items.value ∧ ∀ s ∈ m.selectedItems.value, isEqual s x = false) ∧
    ((removeSelected isEqual m).items.value).Sublist m.items.value ∧
    (removeSelected rowEqual
        { items := ⟨[[("id", 1)], [("id", 2)], [("id", 3)]], 0⟩,
          selectedItems := ⟨[[("id", 2)]], 0⟩ }).items.value = [[("id", 1)], [("id", 3)]] ∧
    (removeSelected rowEqual
        { items := ⟨[[("id", 1)], [("id", 2)], [("id", 3)]], 0⟩,
          selectedItems := ⟨[[("id", 2)]], 0⟩ }).selectedItems.value = [] := by
  refine ⟨removeSelected_items isEqual m, removeSelected_selectedItems isEqual m, ?_, ?_,
    by decide, by decide⟩
  · intro x
    rw [removeSelected_items]
    simp [List.mem_filter]
  · rw [removeSelected_items]
    exact List.filter_sublist _

/-- C6: calling `removeSelected` twice gives the same `items` and `selectedItems` as
calling it once; a call made with empty `selectedItems` removes nothing from `items` and
leaves `selectedItems` empty. -/
theorem removeSelected_idempotent {α : Type} (isEqual : α → α → Bool)
    (m : SelectableArray α) :
    (removeSelected isEqual (removeSelected isEqual m)).items.value =
      (removeSelected isEqual m).items.value ∧
    (removeSelected isEqual (removeSelected isEqual m)).selectedItems.value =
      (removeSelected isEqual m).selectedItems.value ∧
    (removeSelected isEqual m).selectedItems.value = [] ∧
    (∀ m2 : SelectableArray α, m2.selectedItems.value = [] →
      (removeSelected isEqual m2).items.value = m2.items.value ∧
      (removeSelected isEqual m2).selectedItems.value = []) := by
  have hempty : ∀ m2 : SelectableArray α, m2.selectedItems.value = [] →
      (removeSelected isEqual m2).items.value = m2.items.value ∧
      (removeSelected isEqual m2).selectedItems.value = [] := by
    intro m2 h
    refine ⟨?_, removeSelected_selectedItems isEqual m2⟩
    rw [removeSelected_items, h]
    simp
  have hsel := removeSelected_selectedItems isEqual m
  refine ⟨(hempty _ hsel).1, ?_, hsel, hempty⟩
  rw [(hempty _ hsel).2, hsel]

/-- The sample rows of C4: a second `removeSelected` changes neither array. -/
theorem removeSelected_idempotent_witness :
    (removeSelected rowEqual (removeSelected rowEqual
        { items := ⟨[[("id", 1)], [("id", 2)], [("id", 3)]], 0⟩,
          selectedItems := ⟨[[("id", 2)]], 0⟩ })).items.value =
      (removeSelected rowEqual
        { items := ⟨[[("id", 1)], [("id", 2)], [("id", 3)]], 0⟩,
          selectedItems := ⟨[[("id", 2)]], 0⟩ }).items.value ∧
    (removeSelected rowEqual
        { items := ⟨[[("id", 1)], [("id", 3)]], 7⟩,
          selectedItems := ⟨[], 7⟩ }).items.value = [[("id", 1)], [("id", 3)]] :=
  ⟨(removeSelected_idempotent rowEqual
      { items := ⟨[[("id", 1)], [("id", 2)], [("id", 3)]], 0⟩,
        selectedItems := ⟨[[("id", 2)]], 0⟩ }).1,
   ((removeSelected_idempotent rowEqual
      { items := ⟨[[("id", 1)], [("id", 2)], [("id", 3)]], 0⟩,
        selectedItems := ⟨[[("id", 2)]], 0⟩ }).2.2.2
      { items := ⟨[[("id", 1)], [("id", 3)]], 7⟩, selectedItems := ⟨[], 7⟩ } rfl).1⟩

/-! ## Grid bindings -/

/-- C7: `tableData.init` appends the widget dataset to the target (`old ++ D`, hence
exactly `D` for a target empty at bind time), `tableData.update` leaves the widget dataset
equal to the target value whatever the widget held before, and `init` followed by
`update` leaves the widget dataset equal to `D`. -/
theorem tableData_round_trip {α : Type} (g prior : Grid α) (old : List α) (n : Nat)
    (V : ObservableArray α) :
    (tableDataInit g ⟨old, n⟩).value = old ++ g.data ∧
    (tableDataInit g ⟨[], n⟩).value = g.data ∧
    (tableDataUpdate prior V).data = V.value ∧
    (tableDataUpdate g (tableDataInit g ⟨[], n⟩)).data = g.data ∧
    (tableDataUpdate prior (tableDataInit g ⟨[], n⟩)).data = g.data := by
  have hinit : ∀ o : ObservableArray α, (tableDataInit g o).value = o.value ++ g.data := by
    intro o
    simp only [tableDataInit, Grid.fnGetData, pushEach_value]
  have hupd : ∀ (p : Grid α) (v : ObservableArray α), (tableDataUpdate p v).data = v.value := by
    intro p v
    simp [tableDataUpdate, Grid.fnClearTable, Grid.fnAddData]
  refine ⟨hinit _, by simpa using hinit ⟨[], n⟩, hupd _ _, ?_, ?_⟩
  · rw [hupd]; simpa using hinit ⟨[], n⟩
  · rw [hupd]; simpa using hinit ⟨[], n⟩

/-- C8 as stated fails: with widget dataset `[{id:1},{id:2}]`, `viewModel.items()` equal to
`[{id:2},{id:1}]` and target `[{id:1}]`, the only node selected is the one at index `1`,
not the node at index `0` whose widget row is deep-equal to the target row. -/
theorem selectedRows_update_widget_dataset_counterexample :
    selectedRowsUpdate rowEqual
        { data := [[("id", 1)], [("id", 2)]], selectCalls := [] }
        ⟨[[("id", 1)]], 0⟩
        { items := ⟨[[("id", 2)], [("id", 1)]], 0⟩, selectedItems := ⟨[], 0⟩ }
      = some { data := [[("id", 1)], [("id", 2)]], selectCalls := [1] } ∧
    ¬ (∀ g1, selectedRowsUpdate rowEqual
          { data := [[("id", 1)], [("id", 2)]], selectCalls := [] }
          ⟨[[("id", 1)]], 0⟩
          { items := ⟨[[("id", 2)], [("id", 1)]], 0⟩, selectedItems := ⟨[], 0⟩ } = some g1 →
        ∀ j, j ∈ g1.selectCalls ↔
          ∃ row, ([[("id", 1)], [("id", 2)]] : List Row)[j]? = some row ∧
            ∃ v ∈ ([[("id", 1)]] : List Row), rowEqual row v = true) := by
  have hrun : selectedRowsUpdate rowEqual
        { data := [[("id", 1)], [("id", 2)]], selectCalls := [] }
        ⟨[[("id", 1)]], 0⟩
        { items := ⟨[[("id", 2)], [("id", 1)]], 0⟩, selectedItems := ⟨[], 0⟩ }
      = some { data := [[("id", 1)], [("id", 2)]], selectCalls := [1] } := by decide
  refine ⟨hrun, ?_⟩
  intro h
  have h0 := (h _ hrun 0).2 ⟨[("id", 1)], rfl, [("id", 1)], List.mem_singleton.2 rfl, by decide⟩
  simp at h0

/-- C8 amended: `selectedRows.update` reads `val` from the target and `data` from
`viewModel.items()`; when the widget has a row node for every index of `viewModel.items()`
(it holds at least as many rows), the call returns, leaves the widget dataset alone, and
calls select-node exactly on the nodes at the indices `j` for which `viewModel.items()[j]`
is deep-equal to some `val[i]`; ties select every match: if rows `a` and `b` of
`viewModel.items()` are deep-equal to `rowA`, a target of `[rowA]` selects both nodes. -/
theorem selectedRows_update_selects_matches {α : Type} (isEqual : α → α → Bool)
    (g : Grid α) (value : ObservableArray α) (viewModel : SelectableArray α)
    (hrows : viewModel.items.value.length ≤ g.data.length) :
    ∃ g1 calls,
      selectedRowsUpdate isEqual g value viewModel = some g1 ∧
      g1.selectCalls = g.selectCalls ++ calls ∧
      g1.data = g.data ∧
      (∀ j, j ∈ calls ↔
        ∃ row, viewModel.items.value[j]? = some row ∧
          ∃ v ∈ value.value, isEqual row v = true) ∧
      (∀ a b rowA rowB, value.value = [rowA] →
        viewModel.items.value[a]? = some rowA → viewModel.items.value[b]? = some rowB →
        isEqual rowA rowA = true → isEqual rowB rowA = true → a ∈ calls ∧ b ∈ calls) := by
  obtain ⟨g1, calls, hg1, hc, hd, hmem⟩ :=
    selectEach_spec isEqual viewModel.items.value value.value g hrows
  refine ⟨g1, calls, hg1, hc, hd, hmem, ?_⟩
  intro a b rowA rowB hval ha hb hrefl hab
  rw [hmem, hmem, hval]
  exact ⟨⟨rowA, ha, rowA, List.mem_singleton.2 rfl, hrefl⟩,
    ⟨rowB, hb, rowA, List.mem_singleton.2 rfl, hab⟩⟩

/-- Two deep-equal rows `{id:1}` at indices `0` and `2` of `viewModel.items()`, a widget
holding the same three rows: a target of `[{id:1}]` selects the nodes `0` and `2`. -/
theorem selectedRows_update_selects_matches_witness :
    selectedRowsUpdate rowEqual
        { data := [[("id", 1)], [("id", 2)], [("id", 1)]], selectCalls := [] }
        ⟨[[("id", 1)]], 0⟩
        { items := ⟨[[("id", 1)], [("id", 2)], [("id", 1)]], 0⟩, selectedItems := ⟨[], 0⟩ }
      = some { data := [[("id", 1)], [("id", 2)], [("id", 1)]], selectCalls := [0, 2] } ∧
    ∃ (g1 : Grid Row) (calls : List Nat),
      selectedRowsUpdate rowEqual
        { data := [[("id", 1)], [("id", 2)], [("id", 1)]], selectCalls := [] }
        ⟨[[("id", 1)]], 0⟩
        { items := ⟨[[("id", 1)], [("id", 2)], [("id", 1)]], 0⟩, selectedItems := ⟨[], 0⟩ }
        = some g1 ∧
      g1.selectCalls = [] ++ calls ∧ 0 ∈ calls ∧ 2 ∈ calls := by
  refine ⟨by decide, ?_⟩
  obtain ⟨g1, calls, hg1, hc, _, _, htie⟩ :=
    selectedRows_update_selects_matches rowEqual
      { data := [[("id", 1)], [("id", 2)], [("id", 1)]], selectCalls := [] }
      ⟨[[("id", 1)]], 0⟩
      { items := ⟨[[("id", 1)], [("id", 2)], [("id", 1)]], 0⟩, selectedItems := ⟨[], 0⟩ }
      (by decide)
  exact ⟨g1, calls, hg1, hc, htie 0 2 [("id", 1)] [("id", 1)] rfl rfl rfl (by decide) (by decide)⟩

end VisFramework
